import Mathlib

/-!
Verification of the CuboAI Home-Assistant integration core: token store,
token refresher, SRP password-verifier dispatch, camera-profile mapping,
alert pagination/normalization, and the sensor 401-retry orchestration.
The definitions shallowly embed the Python source in
custom_components/cuboai (cuboai_functions.py, async_api.py, sensor.py).
-/

namespace CuboSpec

/-- JSON values, modelling decoded Python JSON data (dict insertion order
kept as a field list); Python None is `null`. -/
inductive Json where
  | null : Json
  | bool (b : Bool) : Json
  | num (n : Int) : Json
  | str (s : String) : Json
  | arr (elems : List Json) : Json
  | obj (fields : List (String × Json)) : Json

/-- Python truthiness of a decoded JSON value: None, False, 0, empty
string, empty list and empty dict are falsy. -/
def Json.truthy : Json → Bool
  | .null => false
  | .bool b => b
  | .num n => n != 0
  | .str s => !s.isEmpty
  | .arr es => !es.isEmpty
  | .obj fs => !fs.isEmpty

/-- Python d.get(k): first binding of key k, None when absent. -/
def jlookup (fields : List (String × Json)) (key : String) : Option Json :=
  (fields.find? (fun e => decide (e.1 = key))).map (fun e => e.2)

/-! ## Alert records and normalization (cuboai_functions.py lines 363..441) -/

/-- A vendor alert record as decoded from the timeline response. Fields
other than the always-present id are Option, mirroring dict.get: a missing
key reads as none (Python None). The record access a[\x22id\x22] in the
source requires id to be present, so id is total. -/
structure Alert where
  id : String
  device_id : Option String
  ty : Option Json
  ts : Option Int
  created : Option Json
  image : Option Json
  params : Option Json
  profile : Option Json
  region : Option Json

/-- Python a.get(\x22ts\x22, 0). -/
def tsD (a : Alert) : Int := a.ts.getD 0

/-- Embeds _normalize_alert: if params is a string that parses as JSON,
replace it with the parsed value; a string that fails to parse, or any
non-string value, passes through unchanged. All other fields are copied.
The JSON parser (json.loads) is an external collaborator, passed in as
parse. -/
def normalize_alert (parse : String → Option Json) (a : Alert) : Alert :=
  let params :=
    match a.params with
    | some (Json.str s) =>
      match parse s with
      | some parsed => some parsed
      | none => some (Json.str s)
    | p => p
  { a with params := params }

/-! ## Association-list model of a Python dict (insertion ordered) -/

/-- Insert or overwrite: an existing key keeps its position and gets the
new value, a new key is appended, as in a Python dict assignment. -/
def upsert {α β : Type} [DecidableEq α] (m : List (α × β)) (k : α) (v : β) :
    List (α × β) :=
  if m.any (fun e => decide (e.1 = k)) then
    m.map (fun e => if e.1 = k then (k, v) else e)
  else
    m ++ [(k, v)]

/-- Python d.get(k) on an association list. -/
def alookup {α β : Type} [DecidableEq α] (m : List (α × β)) (k : α) :
    Option β :=
  (m.find? (fun e => decide (e.1 = k))).map (fun e => e.2)

/-! ## The alert paginator (get_n_alerts_paged) -/

/-- Python max(l) with a default for the empty list, as in
max(ts_list) if ts_list else since_ts. -/
def listMax (l : List Int) (dflt : Int) : Int :=
  match l with
  | [] => dflt
  | x :: xs => xs.foldl max x

/-- One pass of the batch over the dedup map: every record whose
device_id matches the target is inserted (overwriting its id key). -/
def insertBatch (dev : String) (m : List (String × Alert)) (data : List Alert) :
    List (String × Alert) :=
  data.foldl
    (fun acc a => if a.device_id = some dev then upsert acc a.id a else acc) m

/-- The cursor the loop advances to after a batch: one past the largest
nonzero timestamp in the batch (if ts: skips zero and missing
timestamps), defaulting to the current cursor when no nonzero timestamp
was seen. -/
def nextSince (data : List Alert) (sinceTs : Int) : Int :=
  listMax ((data.map tsD).filter (fun t => decide (t ≠ 0))) sinceTs + 1

/-- The while loop of get_n_alerts_paged. The vendor is modelled as a
fixed sequence of batches, one per fetch (batches i is what the i-th GET
returns). fuel is max_iters minus the iterations already done, so the
loop guard iters < max_iters is fuel > 0. Returns the final dedup map and
the number of fetches performed. An empty batch breaks before inserting;
a batch that does not strictly advance the cursor still gets inserted and
then ends the loop (seen_progress set to False). -/
def alerts_loop (batches : Nat → List Alert) (dev : String) :
    Nat → Nat → Int → List (String × Alert) → List (String × Alert) × Nat
  | 0, _, _, m => (m, 0)
  | fuel + 1, iters, sinceTs, m =>
    if (batches iters).isEmpty then (m, 1)
    else if sinceTs < nextSince (batches iters) sinceTs then
      ((alerts_loop batches dev fuel (iters + 1)
          (nextSince (batches iters) sinceTs)
          (insertBatch dev m (batches iters))).1,
        (alerts_loop batches dev fuel (iters + 1)
          (nextSince (batches iters) sinceTs)
          (insertBatch dev m (batches iters))).2 + 1)
    else (insertBatch dev m (batches iters), 1)

/-- Stable descending insertion by the ts key: the new element goes after
every element with a strictly larger key and before the first element
with a smaller or equal key, matching the order produced by a stable sort
with reverse=True. -/
def insertDesc (a : Alert) : List Alert → List Alert
  | [] => [a]
  | b :: l => if tsD a < tsD b then b :: insertDesc a l else a :: b :: l

/-- sorted(values, key ts, reverse=True): stable descending sort. -/
def sortDesc (l : List Alert) : List Alert :=
  l.foldr insertDesc []

/-- Embeds get_n_alerts_paged: initialize since to now minus the lookback
window, run the fetch loop (cap 100), then sort the dedup map values by
ts descending, truncate to n and normalize. Returns the alert list and
the number of fetches performed. -/
def get_n_alerts_paged (parse : String → Option Json)
    (batches : Nat → List Alert) (device_id : String) (n : Nat)
    (now hours_back : Int) : List Alert × Nat :=
  let sinceTs := now - hours_back * 60 * 60
  let r := alerts_loop batches device_id 100 0 sinceTs []
  (((sortDesc (r.1.map Prod.snd)).take n).map (normalize_alert parse), r.2)

/-! ## Token store (cuboai_functions.py lines 17..110) -/

/-- File paths. tmp p models the path string p ++ \x22.tmp\x22 used by the
atomic writer; keeping the suffixing as a constructor records that it is
injective and never collides with a plain path. -/
inductive FPath where
  | base (s : String) : FPath
  | tmp (p : FPath) : FPath
deriving DecidableEq

def LEGACY_ACCESS_TOKEN_FILE : FPath :=
  FPath.base "/config/cuboai_access_token.json"

def LEGACY_REFRESH_TOKEN_FILE : FPath :=
  FPath.base "/config/cuboai_refresh_token.json"

/-- The file system: a finite map from paths to the JSON document the
file holds. Each fsWrite and fsRename is one atomic transition. -/
def FS : Type := List (FPath × Json)

def fsRead (fs : FS) (p : FPath) : Option Json :=
  (fs.find? (fun e => decide (e.1 = p))).map (fun e => e.2)

def fsHas (fs : FS) (p : FPath) : Bool := (fsRead fs p).isSome

def fsErase (fs : FS) (p : FPath) : FS :=
  fs.filter (fun e => decide (e.1 ≠ p))

def fsWrite (fs : FS) (p : FPath) (v : Json) : FS :=
  (p, v) :: fsErase fs p

/-- os.replace src dst: move the document at src over dst. -/
def fsRename (fs : FS) (src dst : FPath) : FS :=
  match fsRead fs src with
  | some v => fsWrite (fsErase fs src) dst v
  | none => fs

/-- Module state of cuboai_functions: the file system plus the two
configurable portable paths (the ACCESS_TOKEN_FILE and
REFRESH_TOKEN_FILE globals, None until set_token_paths runs). -/
structure TokenState where
  fs : FS
  access_token_file : Option FPath
  refresh_token_file : Option FPath

/-- Python truthiness of an optional path string (None and the empty
string are falsy). -/
def cfgTruthy : Option FPath → Bool
  | none => false
  | some (FPath.base s) => !s.isEmpty
  | some (FPath.tmp _) => true

def cfgGet (o : Option FPath) : FPath := o.getD (FPath.base "")

def cfgHas (fs : FS) (o : Option FPath) : Bool :=
  match o with
  | none => false
  | some p => fsHas fs p

/-- Embeds _get_access_token_path / _get_refresh_token_path, which are
textually identical up to the configured global and the legacy constant:
prefer the configured path when set and existing, else the legacy path
when existing, else the configured path (for writing) falling back to
legacy when unset. -/
def resolve_token_path (cfg : Option FPath) (legacy : FPath) (fs : FS) :
    FPath :=
  if cfgTruthy cfg && cfgHas fs cfg then cfgGet cfg
  else if fsHas fs legacy then legacy
  else if cfgTruthy cfg then cfgGet cfg
  else legacy

/-- Embeds _atomic_write: write the payload to path.tmp, then rename the
temp file over the destination. -/
def atomic_write (fs : FS) (path : FPath) (payload : Json) : FS :=
  fsRename (fsWrite fs (FPath.tmp path) payload) (FPath.tmp path) path

/-- An _atomic_write interrupted by a crash after the temp write and
before the rename: only the temp file was created. -/
def interrupted_atomic_write (fs : FS) (path : FPath) (payload : Json) :
    FS :=
  fsWrite fs (FPath.tmp path) payload

def save_token_fs (cfg : Option FPath) (legacy : FPath) (key : String)
    (fs : FS) (v : Json) : FS :=
  atomic_write fs (resolve_token_path cfg legacy fs) (Json.obj [(key, v)])

def interrupted_save_token_fs (cfg : Option FPath) (legacy : FPath)
    (key : String) (fs : FS) (v : Json) : FS :=
  interrupted_atomic_write fs (resolve_token_path cfg legacy fs)
    (Json.obj [(key, v)])

/-- Embeds load_access_token / load_refresh_token: resolve the path, read
and JSON-decode the file, and return the value under the key; a missing
file, a non-dict document or a missing key all resolve to none (the
Python except-return-None). -/
def load_token_fs (cfg : Option FPath) (legacy : FPath) (key : String)
    (fs : FS) : Option Json :=
  match fsRead fs (resolve_token_path cfg legacy fs) with
  | some (Json.obj fields) => jlookup fields key
  | _ => none

def get_access_token_path (s : TokenState) : FPath :=
  resolve_token_path s.access_token_file LEGACY_ACCESS_TOKEN_FILE s.fs

def get_refresh_token_path (s : TokenState) : FPath :=
  resolve_token_path s.refresh_token_file LEGACY_REFRESH_TOKEN_FILE s.fs

def save_access_token (s : TokenState) (v : Json) : TokenState :=
  { s with
    fs := save_token_fs s.access_token_file LEGACY_ACCESS_TOKEN_FILE
      "access_token" s.fs v }

def save_refresh_token (s : TokenState) (v : Json) : TokenState :=
  { s with
    fs := save_token_fs s.refresh_token_file LEGACY_REFRESH_TOKEN_FILE
      "refresh_token" s.fs v }

def interrupted_save_access_token (s : TokenState) (v : Json) : TokenState :=
  { s with
    fs := interrupted_save_token_fs s.access_token_file
      LEGACY_ACCESS_TOKEN_FILE "access_token" s.fs v }

def interrupted_save_refresh_token (s : TokenState) (v : Json) : TokenState :=
  { s with
    fs := interrupted_save_token_fs s.refresh_token_file
      LEGACY_REFRESH_TOKEN_FILE "refresh_token" s.fs v }

def load_access_token (s : TokenState) : Option Json :=
  load_token_fs s.access_token_file LEGACY_ACCESS_TOKEN_FILE "access_token"
    s.fs

def load_refresh_token (s : TokenState) : Option Json :=
  load_token_fs s.refresh_token_file LEGACY_REFRESH_TOKEN_FILE
    "refresh_token" s.fs

/-! ## Token refresher (cuboai_functions.py lines 283..292) -/

/-- The JSON dict of a successful /v1/oauth/token exchange, after
refresh_cubo_token has already unwrapped an optional data envelope.
Fields model dict keys that may be absent. -/
structure RefreshResp where
  access_token : Option Json
  refresh_token : Option Json

/-- The first step of refresh_access_token_only:
load_refresh_token() or refresh_token, i.e. the stored token when it is
truthy, else the caller-supplied one. -/
def used_refresh_token (s : TokenState) (refresh_token : Json) : Json :=
  match load_refresh_token s with
  | some v => if v.truthy then v else refresh_token
  | none => refresh_token

/-- Embeds refresh_access_token_only on the success path: re-read the
stored refresh token, exchange it (the vendor call is the external
collaborator exchange), then persist the new access token and the new
refresh token (defaulting to the token that was used) before returning
both. -/
def refresh_access_token_only (exchange : Json → RefreshResp)
    (s : TokenState) (refresh_token : Json) : Json × Json × TokenState :=
  let disk_token := used_refresh_token s refresh_token
  let resp := exchange disk_token
  let access_token := resp.access_token.getD Json.null
  let new_refresh_token := resp.refresh_token.getD disk_token
  let s1 := save_access_token s access_token
  let s2 := save_refresh_token s1 new_refresh_token
  (access_token, new_refresh_token, s2)

/-! ## SRP password-verifier dispatch (cuboai_functions.py lines 187..203) -/

/-- The provider response to RespondToAuthChallenge(PASSWORD_VERIFIER).
Each field models an optional dict key. -/
structure VerifierResponse where
  challengeName : Option String
  session : Option String
  challengeParameters : Option Json
  authenticationResult : Option Json

/-- The MFA dict built when the provider demands a second factor. -/
structure MfaChallengeInfo where
  challenge : String
  session : String
  challenge_params : Json
  username : String

/-- Embeds the response dispatch of respond_to_password_verifier: if the
response carries a ChallengeName key, build the MFA dict from
ChallengeName, Session (a required key there, so a missing one is a
KeyError) and the username; otherwise return the AuthenticationResult
credential pair. The SRP proof computation and the network call that
produce the response are external collaborators; username comes from the
challenge parameters of the previous step. -/
def respond_to_password_verifier (username : String)
    (result : VerifierResponse) :
    Except String (MfaChallengeInfo ⊕ Json) :=
  match result.challengeName with
  | some cn =>
    match result.session with
    | some sess =>
      Except.ok (Sum.inl
        { challenge := cn, session := sess,
          challenge_params := result.challengeParameters.getD (Json.obj []),
          username := username })
    | none => Except.error "KeyError: Session"
  | none =>
    match result.authenticationResult with
    | some ar => Except.ok (Sum.inr ar)
    | none => Except.error "KeyError: AuthenticationResult"

/-! ## Camera profiles (cuboai_functions.py lines 296..315) -/

/-- One entry of the profiles list in the /user/cameras response; both
keys may be absent. The profile value is normally a JSON-encoded string. -/
structure CameraProfileEntry where
  profile : Option Json
  device_id : Option Json

/-- Values a Python dict can be keyed by here: the hashable JSON scalars.
Lists and dicts are unhashable and raise, which the source catches by
skipping the entry. -/
inductive JScalar where
  | null : JScalar
  | bool (b : Bool) : JScalar
  | num (n : Int) : JScalar
  | str (s : String) : JScalar
deriving DecidableEq

/-- The hashable scalar view of a JSON value, none for list/dict. -/
def Json.asKey : Json → Option JScalar
  | .null => some JScalar.null
  | .bool b => some (JScalar.bool b)
  | .num n => some (JScalar.num n)
  | .str s => some (JScalar.str s)
  | .arr _ => none
  | .obj _ => none

/-- The per-profile body of the get_camera_profiles loop: JSON-decode the
profile string (defaulting to the empty dict string), read its baby key
defaulting to Unknown, and yield (baby_name, device_id). Yields none
whenever the Python body would raise and be skipped: a non-string profile
value, a profile string that fails to parse, a parse result that is not a
dict, or an unhashable baby value. -/
def camera_profile_entry (parse : String → Option Json)
    (p : CameraProfileEntry) : Option (JScalar × Json) :=
  match p.profile.getD (Json.str "\x7b\x7d") with
  | Json.str s =>
    match parse s with
    | some (Json.obj fields) =>
      let babyName := (jlookup fields "baby").getD (Json.str "Unknown")
      match babyName.asKey with
      | some k => some (k, p.device_id.getD Json.null)
      | none => none
    | _ => none
  | _ => none

/-- Embeds get_camera_profiles: fold the profiles into a dict keyed by
baby name, assignment overwriting any entry with the same name. -/
def get_camera_profiles (parse : String → Option Json)
    (profiles : List CameraProfileEntry) : List (JScalar × Json) :=
  profiles.foldl
    (fun m p =>
      match camera_profile_entry parse p with
      | some e => upsert m e.1 e.2
      | none => m)
    []

/-- The device_id yielded by the last profile in the list that maps to
baby name b, if any: the specification of which camera survives the
name collisions. -/
def last_profile_device (parse : String → Option Json)
    (profiles : List CameraProfileEntry) (b : JScalar) : Option Json :=
  ((profiles.reverse.filterMap (camera_profile_entry parse)).find?
    (fun e => decide (e.1 = b))).map (fun e => e.2)

/-! ## Sensor poll cycle with refresh-on-401 (sensor.py lines 470..496) -/

/-- Occurrence of sub in s, Python sub in s, on the underlying character
lists. -/
def charsHaveSub (sub : List Char) : List Char → Bool
  | [] => sub.isEmpty
  | c :: rest => sub.isPrefixOf (c :: rest) || charsHaveSub sub rest

def strHasSub (sub s : String) : Bool := charsHaveSub sub.data s.data

/-- Python str.lower(), mapped over the character list (the exception
messages involved are ASCII). -/
def lowerStr (s : String) : String := String.mk (s.data.map Char.toLower)

/-- The camera-state sensor classifier for a caught fetch exception, as
written in the source:
\x22401\x22 in str(e) or \x22Unauthorized\x22 in str(e).lower().
The second test compares the capitalized literal against the lowered
message, exactly as the source does. -/
def camera_auth_error_matches (e : String) : Bool :=
  strHasSub "401" e || strHasSub "Unauthorized" (lowerStr e)

/-- Outcome of one CuboCameraStateSensor.async_update cycle: the sensor
state together with how many token refreshes and how many camera-state
fetches were performed. -/
structure SensorCycle where
  state : Json
  refreshes : Nat
  fetches : Nat

/-- The sensor state derived from a successful camera-state fetch:
data.get(\x22state\x22, \x22unknown\x22) when data is truthy, the Unknown
state when falsy; a truthy non-dict would raise and fall to the outer
error handler. -/
def camera_state_of_data (d : Json) : Json :=
  if d.truthy then
    match d with
    | Json.obj fields => (jlookup fields "state").getD (Json.str "unknown")
    | _ => Json.str "Error"
  else Json.str "Unknown"

/-- Embeds CuboCameraStateSensor.async_update. The network effects are
the external collaborators: fetch1 is the first get_camera_state call,
refresh the token refresh, fetch2 the retried call; an Except.error
carries str(e) of the raised exception. A failed first fetch is retried
once after a refresh only when camera_auth_error_matches accepts the
message; every other failure, a failed refresh, and a failed retry all
reach the outer handler which sets the Error state. -/
def camera_state_update (fetch1 : Except String Json)
    (refresh : Except String Unit) (fetch2 : Except String Json) :
    SensorCycle :=
  match fetch1 with
  | Except.ok d => { state := camera_state_of_data d, refreshes := 0, fetches := 1 }
  | Except.error e =>
    if camera_auth_error_matches e then
      match refresh with
      | Except.error _ => { state := Json.str "Error", refreshes := 1, fetches := 1 }
      | Except.ok _ =>
        match fetch2 with
        | Except.ok d =>
          { state := camera_state_of_data d, refreshes := 1, fetches := 2 }
        | Except.error _ =>
          { state := Json.str "Error", refreshes := 1, fetches := 2 }
    else { state := Json.str "Error", refreshes := 0, fetches := 1 }

/-! ## Concrete fixtures used by counterexamples and witnesses -/

/-- A parser that accepts nothing; used where the parse result is
irrelevant. -/
def noParse : String → Option Json := fun _ => none

/-- An alert for device d1 with the given timestamp and no optional
payload. -/
def alertAt (ts : Int) : Alert :=
  { id := "a1", device_id := some "d1", ty := none, ts := some ts,
    created := none, image := none, params := none, profile := none,
    region := none }

/-- A vendor that returns one alert whose timestamp equals the initial
cursor 5 on the first fetch and nothing afterwards. -/
def stuckBatches : Nat → List Alert :=
  fun i => if i = 0 then [alertAt 5] else []

/-- A vendor that always answers with one alert of timestamp 3. -/
def slowBatches : Nat → List Alert := fun _ => [alertAt 3]

/-- A token-store state with a portable access path configured whose file
does not exist, while the legacy access file exists. -/
def legacyFallbackState : TokenState :=
  { fs := [(LEGACY_ACCESS_TOKEN_FILE, Json.obj [("access_token", Json.str "old")])],
    access_token_file := some (FPath.base "/data/cuboai_access_token.json"),
    refresh_token_file := none }

/-- A fresh token-store state with both portable paths configured and an
empty file system. -/
def freshConfiguredState : TokenState :=
  { fs := [],
    access_token_file := some (FPath.base "/data/cuboai_access_token.json"),
    refresh_token_file := some (FPath.base "/data/cuboai_refresh_token.json") }

/-- A vendor token exchange that always succeeds with the pair A2, R2. -/
def okExchange : Json → RefreshResp :=
  fun _ => { access_token := some (Json.str "A2"),
             refresh_token := some (Json.str "R2") }

/-- A password-verifier response demanding SMS MFA. -/
def smsMfaResponse : VerifierResponse :=
  { challengeName := some "SMS_MFA", session := some "sess-1",
    challengeParameters := none, authenticationResult := none }

/-- A parser recognizing exactly the JSON text of the spec example
(the string of a level-high object). -/
def levelHighText : String := "\x7b\x22level\x22:\x22high\x22\x7d"

def levelHighParse : String → Option Json :=
  fun s =>
    if s = levelHighText then some (Json.obj [("level", Json.str "high")])
    else none

/-- An alert whose params field is the JSON text of the level-high
object. -/
def alertWithParamsText : Alert :=
  { id := "a1", device_id := some "d1", ty := none, ts := some 7,
    created := none, image := none,
    params := some (Json.str levelHighText), profile := none,
    region := none }

/-! ## Lemmas: the association-list dict -/

theorem upsert_mem {α β : Type} [DecidableEq α] {m : List (α × β)} {k : α}
    {v : β} : ∀ e ∈ upsert m k v, e ∈ m ∨ e = (k, v) := by
  intro e he
  unfold upsert at he
  by_cases h : m.any (fun e => decide (e.1 = k))
  · rw [if_pos h] at he
    rcases List.mem_map.mp he with ⟨x, hx, hxe⟩
    by_cases hk : x.1 = k
    · right; rw [if_pos hk] at hxe; exact hxe.symm
    · left; rw [if_neg hk] at hxe; exact hxe ▸ hx
  · rw [if_neg h] at he
    rcases List.mem_append.mp he with h1 | h1
    · exact Or.inl h1
    · exact Or.inr (List.mem_singleton.mp h1)

theorem upsert_keys_nodup {α β : Type} [DecidableEq α] {m : List (α × β)}
    {k : α} {v : β} (h : (m.map Prod.fst).Nodup) :
    ((upsert m k v).map Prod.fst).Nodup := by
  unfold upsert
  by_cases hany : m.any (fun e => decide (e.1 = k))
  · rw [if_pos hany]
    have hmap : (m.map (fun e => if e.1 = k then (k, v) else e)).map Prod.fst
        = m.map Prod.fst := by
      rw [List.map_map]
      apply List.map_congr_left
      intro e _
      by_cases hk : e.1 = k
      · simp [Function.comp, hk]
      · simp [Function.comp, hk]
    rw [hmap]; exact h
  · rw [if_neg hany, List.map_append]
    refine List.nodup_append.mpr ⟨h, List.nodup_singleton k, ?_⟩
    intro a ha hb
    have hb2 : a = k := by simpa using hb
    rw [hb2] at ha
    rcases List.mem_map.mp ha with ⟨e, he, hek⟩
    exact hany (List.any_eq_true.mpr ⟨e, he, by simp [hek]⟩)

theorem alookup_cons {α β : Type} [DecidableEq α] (e : α × β)
    (t : List (α × β)) (b : α) :
    alookup (e :: t) b = if e.1 = b then some e.2 else alookup t b := by
  unfold alookup
  by_cases h : e.1 = b
  · rw [List.find?_cons_of_pos _ (by simpa using h), if_pos h]
    rfl
  · rw [List.find?_cons_of_neg _ (by simpa using h), if_neg h]

theorem alookup_map_overwrite_ne {α β : Type} [DecidableEq α]
    (m : List (α × β)) (k : α) (v : β) (b : α) (hb : b ≠ k) :
    alookup (m.map (fun e => if e.1 = k then (k, v) else e)) b
      = alookup m b := by
  induction m with
  | nil => rfl
  | cons e t ih =>
    rw [List.map_cons, alookup_cons, alookup_cons]
    by_cases hek : e.1 = k
    · rw [if_pos hek,
        if_neg (show ¬(((k, v) : α × β).1 = b) from fun h => hb h.symm),
        if_neg (show ¬(e.1 = b) from by rw [hek]; exact fun h => hb h.symm)]
      exact ih
    · rw [if_neg hek]
      by_cases heb : e.1 = b
      · rw [if_pos heb, if_pos heb]
      · rw [if_neg heb, if_neg heb]
        exact ih

theorem alookup_map_overwrite_eq {α β : Type} [DecidableEq α]
    (m : List (α × β)) (k : α) (v : β)
    (hany : m.any (fun e => decide (e.1 = k)) = true) :
    alookup (m.map (fun e => if e.1 = k then (k, v) else e)) k = some v := by
  induction m with
  | nil => simp at hany
  | cons e t ih =>
    rw [List.map_cons, alookup_cons]
    by_cases hek : e.1 = k
    · rw [if_pos hek, if_pos (show ((k, v) : α × β).1 = k from rfl)]
    · rw [if_neg hek, if_neg hek]
      apply ih
      simp only [List.any_cons, Bool.or_eq_true] at hany
      rcases hany with h1 | h1
      · exact absurd (by simpa using h1) hek
      · exact h1

theorem alookup_upsert {α β : Type} [DecidableEq α] (m : List (α × β))
    (k : α) (v : β) (b : α) :
    alookup (upsert m k v) b = if b = k then some v else alookup m b := by
  unfold upsert
  by_cases hany : m.any (fun e => decide (e.1 = k))
  · rw [if_pos hany]
    by_cases hb : b = k
    · rw [if_pos hb, hb]
      exact alookup_map_overwrite_eq m k v hany
    · rw [if_neg hb]
      exact alookup_map_overwrite_ne m k v b hb
  · rw [if_neg hany]
    unfold alookup
    rw [List.find?_append]
    by_cases hb : b = k
    · have hnone : m.find? (fun e => decide (e.1 = b)) = none := by
        rw [List.find?_eq_none]
        intro x hx hxb
        rw [hb] at hxb
        exact hany (List.any_eq_true.mpr ⟨x, hx, hxb⟩)
      rw [if_pos hb, hnone, hb]
      simp
    · have hnone : [(k, v)].find? (fun e => decide (e.1 = b)) = none := by
        rw [List.find?_eq_none]
        intro x hx hxb
        rw [List.mem_singleton] at hx
        rw [hx] at hxb
        have hkb : k = b := by simpa using hxb
        exact hb hkb.symm
      rw [if_neg hb, hnone]
      cases m.find? (fun e => decide (e.1 = b)) <;> rfl

/-! ## Lemmas: descending insertion sort -/

theorem insertDesc_perm (a : Alert) (l : List Alert) :
    List.Perm (insertDesc a l) (a :: l) := by
  induction l with
  | nil => exact List.Perm.refl _
  | cons b t ih =>
    unfold insertDesc
    by_cases h : tsD a < tsD b
    · rw [if_pos h]
      exact (List.Perm.cons b ih).trans (List.Perm.swap a b t)
    · rw [if_neg h]

theorem insertDesc_sorted (a : Alert) (l : List Alert)
    (h : l.Pairwise (fun x y => tsD y ≤ tsD x)) :
    (insertDesc a l).Pairwise (fun x y => tsD y ≤ tsD x) := by
  induction l with
  | nil => simp [insertDesc]
  | cons b t ih =>
    unfold insertDesc
    rcases List.pairwise_cons.mp h with ⟨hb, ht⟩
    by_cases hlt : tsD a < tsD b
    · rw [if_pos hlt]
      refine List.pairwise_cons.mpr ⟨?_, ih ht⟩
      intro c hc
      rcases List.mem_cons.mp ((insertDesc_perm a t).mem_iff.mp hc) with h1 | h1
      · rw [h1]; exact le_of_lt hlt
      · exact hb c h1
    · rw [if_neg hlt]
      refine List.pairwise_cons.mpr ⟨?_, h⟩
      intro c hc
      rcases List.mem_cons.mp hc with h1 | h1
      · rw [h1]; exact le_of_not_lt hlt
      · exact (hb c h1).trans (le_of_not_lt hlt)

theorem sortDesc_perm (l : List Alert) : List.Perm (sortDesc l) l := by
  induction l with
  | nil => exact List.Perm.refl _
  | cons a t ih =>
    exact (insertDesc_perm a (sortDesc t)).trans (List.Perm.cons a ih)

theorem sortDesc_sorted (l : List Alert) :
    (sortDesc l).Pairwise (fun x y => tsD y ≤ tsD x) := by
  induction l with
  | nil => exact List.Pairwise.nil
  | cons a t ih => exact insertDesc_sorted a (sortDesc t) ih

/-! ## Lemmas: the paginator loop -/

theorem insertBatch_mem (dev : String) (data : List Alert) :
    ∀ m : List (String × Alert), ∀ e ∈ insertBatch dev m data,
      e ∈ m ∨ ∃ a ∈ data, a.device_id = some dev ∧ e = (a.id, a) := by
  induction data with
  | nil => intro m e he; exact Or.inl he
  | cons a t ih =>
    intro m e he
    unfold insertBatch at he
    rw [List.foldl_cons] at he
    rcases ih _ e he with h1 | h1
    · by_cases hd : a.device_id = some dev
      · rw [if_pos hd] at h1
        rcases upsert_mem e h1 with h2 | h2
        · exact Or.inl h2
        · exact Or.inr ⟨a, List.mem_cons_self a t, hd, h2⟩
      · rw [if_neg hd] at h1
        exact Or.inl h1
    · rcases h1 with ⟨x, hx, hxd, hxe⟩
      exact Or.inr ⟨x, List.mem_cons_of_mem a hx, hxd, hxe⟩

theorem insertBatch_keys_nodup (dev : String) (data : List Alert) :
    ∀ m : List (String × Alert), (m.map Prod.fst).Nodup →
      ((insertBatch dev m data).map Prod.fst).Nodup := by
  induction data with
  | nil => intro m h; exact h
  | cons a t ih =>
    intro m h
    unfold insertBatch
    rw [List.foldl_cons]
    refine ih _ ?_
    by_cases hd : a.device_id = some dev
    · rw [if_pos hd]
      exact upsert_keys_nodup h
    · rw [if_neg hd]
      exact h

theorem alerts_loop_fetches_le (batches : Nat → List Alert) (dev : String) :
    ∀ fuel iters sinceTs m,
      (alerts_loop batches dev fuel iters sinceTs m).2 ≤ fuel := by
  intro fuel
  induction fuel with
  | zero => intro iters s m; exact Nat.le_refl 0
  | succ f ih =>
    intro iters s m
    unfold alerts_loop
    by_cases hemp : (batches iters).isEmpty
    · rw [if_pos hemp]
      exact Nat.succ_le_succ (Nat.zero_le f)
    · rw [if_neg hemp]
      by_cases hpr : s < nextSince (batches iters) s
      · rw [if_pos hpr]
        exact Nat.succ_le_succ (ih _ _ _)
      · rw [if_neg hpr]
        exact Nat.succ_le_succ (Nat.zero_le f)

theorem alerts_loop_mem (batches : Nat → List Alert) (dev : String) :
    ∀ fuel iters sinceTs m,
      ∀ e ∈ (alerts_loop batches dev fuel iters sinceTs m).1,
        e ∈ m ∨ ∃ i, iters ≤ i ∧ i < iters + fuel ∧ e.2 ∈ batches i ∧
          e.2.device_id = some dev ∧ e.1 = e.2.id := by
  intro fuel
  induction fuel with
  | zero => intro iters s m e he; exact Or.inl he
  | succ f ih =>
    intro iters s m e he
    unfold alerts_loop at he
    by_cases hemp : (batches iters).isEmpty
    · rw [if_pos hemp] at he
      exact Or.inl he
    · rw [if_neg hemp] at he
      by_cases hpr : s < nextSince (batches iters) s
      · rw [if_pos hpr] at he
        rcases ih (iters + 1) _ _ e he with h1 | h1
        · rcases insertBatch_mem dev (batches iters) m e h1 with h2 | h2
          · exact Or.inl h2
          · rcases h2 with ⟨a, ha, had, hae⟩
            refine Or.inr ⟨iters, Nat.le_refl _, by omega, ?_, ?_, ?_⟩
            · rw [hae]; exact ha
            · rw [hae]; exact had
            · rw [hae]
        · rcases h1 with ⟨i, hi1, hi2, rest⟩
          exact Or.inr ⟨i, by omega, by omega, rest⟩
      · rw [if_neg hpr] at he
        rcases insertBatch_mem dev (batches iters) m e he with h2 | h2
        · exact Or.inl h2
        · rcases h2 with ⟨a, ha, had, hae⟩
          refine Or.inr ⟨iters, Nat.le_refl _, by omega, ?_, ?_, ?_⟩
          · rw [hae]; exact ha
          · rw [hae]; exact had
          · rw [hae]

theorem alerts_loop_keys_nodup (batches : Nat → List Alert) (dev : String) :
    ∀ fuel iters sinceTs m, (m.map Prod.fst).Nodup →
      (((alerts_loop batches dev fuel iters sinceTs m).1).map Prod.fst).Nodup := by
  intro fuel
  induction fuel with
  | zero => intro iters s m h; exact h
  | succ f ih =>
    intro iters s m h
    unfold alerts_loop
    by_cases hemp : (batches iters).isEmpty
    · rw [if_pos hemp]; exact h
    · rw [if_neg hemp]
      by_cases hpr : s < nextSince (batches iters) s
      · rw [if_pos hpr]
        exact ih _ _ _ (insertBatch_keys_nodup dev (batches iters) m h)
      · rw [if_neg hpr]
        exact insertBatch_keys_nodup dev (batches iters) m h

theorem foldl_max_lt (c : Int) :
    ∀ (xs : List Int) (acc : Int), acc < c → (∀ x ∈ xs, x < c) →
      xs.foldl max acc < c := by
  intro xs
  induction xs with
  | nil => intro acc h _; exact h
  | cons y ys ih =>
    intro acc hacc hall
    rw [List.foldl_cons]
    refine ih _ (max_lt hacc (hall y (List.mem_cons_self y ys))) ?_
    intro x hx
    exact hall x (List.mem_cons_of_mem y hx)

theorem listMax_lt (l : List Int) (d c : Int) (hne : l ≠ [])
    (h : ∀ x ∈ l, x < c) : listMax l d < c := by
  match l, hne with
  | x :: xs, _ =>
    unfold listMax
    refine foldl_max_lt c xs x (h x (List.mem_cons_self x xs)) ?_
    intro y hy
    exact h y (List.mem_cons_of_mem x hy)

/-! ## Lemmas: the file-system model -/

theorem FPath.tmp_ne (p : FPath) : FPath.tmp p ≠ p := by
  induction p with
  | base s => intro h; exact FPath.noConfusion h
  | tmp q ih => intro h; exact ih (by injection h)

theorem fsRead_write_self (fs : FS) (p : FPath) (v : Json) :
    fsRead (fsWrite fs p v) p = some v := by
  unfold fsRead fsWrite
  rw [List.find?_cons_of_pos _ (by simp)]
  rfl

theorem fsRead_erase_ne (fs : FS) (p q : FPath) (h : q ≠ p) :
    fsRead (fsErase fs p) q = fsRead fs q := by
  induction fs with
  | nil => rfl
  | cons e t ih =>
    unfold fsErase at ih ⊢
    unfold fsRead at ih ⊢
    rw [List.filter_cons]
    by_cases hep : e.1 = p
    · rw [if_neg (by simp [hep])]
      rw [List.find?_cons_of_neg _ (by simp [hep]; exact fun hq => h hq.symm)]
      exact ih
    · rw [if_pos (by simp [hep])]
      by_cases heq : e.1 = q
      · rw [List.find?_cons_of_pos _ (by simp [heq]),
          List.find?_cons_of_pos _ (by simp [heq])]
      · rw [List.find?_cons_of_neg _ (by simp [heq]),
          List.find?_cons_of_neg _ (by simp [heq])]
        exact ih

theorem fsRead_erase_self (fs : FS) (p : FPath) :
    fsRead (fsErase fs p) p = none := by
  unfold fsRead
  have h : (fsErase fs p).find? (fun e => decide (e.1 = p)) = none := by
    rw [List.find?_eq_none]
    intro x hx
    rcases List.mem_filter.mp hx with ⟨_, hx2⟩
    simpa using of_decide_eq_true hx2
  rw [h]
  rfl

theorem fsRead_write_ne (fs : FS) (p : FPath) (v : Json) (q : FPath)
    (h : q ≠ p) : fsRead (fsWrite fs p v) q = fsRead fs q := by
  unfold fsWrite
  have hstep : fsRead ((p, v) :: fsErase fs p) q = fsRead (fsErase fs p) q := by
    unfold fsRead
    rw [List.find?_cons_of_neg _ (by simp; exact fun hq => h hq.symm)]
  rw [hstep]
  exact fsRead_erase_ne fs p q h

theorem atomic_write_read_self (fs : FS) (p : FPath) (v : Json) :
    fsRead (atomic_write fs p v) p = some v := by
  unfold atomic_write fsRename
  rw [fsRead_write_self]
  exact fsRead_write_self _ _ _

theorem atomic_write_read_tmp (fs : FS) (p : FPath) (v : Json) :
    fsRead (atomic_write fs p v) (FPath.tmp p) = none := by
  unfold atomic_write fsRename
  rw [fsRead_write_self]
  rw [fsRead_write_ne _ _ _ _ (FPath.tmp_ne p)]
  exact fsRead_erase_self _ _

theorem atomic_write_read_other (fs : FS) (p : FPath) (v : Json) (q : FPath)
    (h1 : q ≠ p) (h2 : q ≠ FPath.tmp p) :
    fsRead (atomic_write fs p v) q = fsRead fs q := by
  unfold atomic_write fsRename
  rw [fsRead_write_self]
  rw [fsRead_write_ne _ _ _ _ h1, fsRead_erase_ne _ _ _ h2,
    fsRead_write_ne _ _ _ _ h2]

theorem fsHas_eq_isSome (fs : FS) (p : FPath) :
    fsHas fs p = (fsRead fs p).isSome := rfl

theorem resolve_some (c : FPath) (legacy : FPath) (fs : FS) :
    resolve_token_path (some c) legacy fs =
      if cfgTruthy (some c) && fsHas fs c then c
      else if fsHas fs legacy then legacy
      else if cfgTruthy (some c) then c else legacy := rfl

theorem resolve_not_truthy (cfg : Option FPath) (legacy : FPath) (fs : FS)
    (h : cfgTruthy cfg = false) :
    resolve_token_path cfg legacy fs = legacy := by
  unfold resolve_token_path
  rw [h]
  by_cases hf : fsHas fs legacy
  · simp [hf]
  · simp [hf]

theorem resolve_cfg_exists (c legacy : FPath) (fs : FS)
    (ht : cfgTruthy (some c) = true) (hc : fsHas fs c = true) :
    resolve_token_path (some c) legacy fs = c := by
  rw [resolve_some, ht, hc]
  rfl

theorem resolve_cfg_missing_legacy (c legacy : FPath) (fs : FS)
    (ht : cfgTruthy (some c) = true) (hc : fsHas fs c = false)
    (hl : fsHas fs legacy = true) :
    resolve_token_path (some c) legacy fs = legacy := by
  rw [resolve_some, ht, hc, hl]
  rfl

theorem resolve_cfg_no_legacy (c legacy : FPath) (fs : FS)
    (ht : cfgTruthy (some c) = true) (hl : fsHas fs legacy = false) :
    resolve_token_path (some c) legacy fs = c := by
  rw [resolve_some, ht, hl]
  by_cases hc : fsHas fs c = true
  · rw [hc]; rfl
  · rw [Bool.not_eq_true] at hc
    rw [hc]; rfl

theorem jlookup_single_self (key : String) (v : Json) :
    jlookup [(key, v)] key = some v := by
  unfold jlookup
  rw [List.find?_cons_of_pos _ (by simp)]
  rfl

theorem fsHas_write_ne (fs : FS) (p : FPath) (v : Json) (q : FPath)
    (h : q ≠ p) : fsHas (fsWrite fs p v) q = fsHas fs q := by
  unfold fsHas
  rw [fsRead_write_ne _ _ _ _ h]

theorem fsHas_write_self (fs : FS) (p : FPath) (v : Json) :
    fsHas (fsWrite fs p v) p = true := by
  unfold fsHas
  rw [fsRead_write_self]
  rfl

theorem resolve_stable_after_save (cfg : Option FPath) (legacy : FPath)
    (fs : FS) (w : Json) :
    resolve_token_path cfg legacy
        (atomic_write fs (resolve_token_path cfg legacy fs) w)
      = resolve_token_path cfg legacy fs := by
  by_cases ht : cfgTruthy cfg = true
  · cases cfg with
    | none => simp [cfgTruthy] at ht
    | some c =>
      by_cases hc : fsHas fs c = true
      · have hp := resolve_cfg_exists c legacy fs ht hc
        rw [hp]
        refine resolve_cfg_exists c legacy _ ht ?_
        unfold fsHas
        rw [atomic_write_read_self]
        rfl
      · rw [Bool.not_eq_true] at hc
        by_cases hl : fsHas fs legacy = true
        · have hp := resolve_cfg_missing_legacy c legacy fs ht hc hl
          rw [hp]
          have hcl : c ≠ legacy := by
            intro h
            rw [h, hl] at hc
            exact Bool.noConfusion hc
          have hcnew : fsHas (atomic_write fs legacy w) c = false := by
            by_cases hct : c = FPath.tmp legacy
            · rw [hct]
              unfold fsHas
              rw [atomic_write_read_tmp]
              rfl
            · unfold fsHas
              rw [atomic_write_read_other _ _ _ _ hcl hct]
              exact hc
          refine resolve_cfg_missing_legacy c legacy _ ht hcnew ?_
          unfold fsHas
          rw [atomic_write_read_self]
          rfl
        · rw [Bool.not_eq_true] at hl
          have hp := resolve_cfg_no_legacy c legacy fs ht hl
          rw [hp]
          refine resolve_cfg_exists c legacy _ ht ?_
          unfold fsHas
          rw [atomic_write_read_self]
          rfl
  · have ht2 : cfgTruthy cfg = false := by simpa using ht
    rw [resolve_not_truthy cfg legacy fs ht2,
      resolve_not_truthy cfg legacy _ ht2]

theorem load_after_save (cfg : Option FPath) (legacy : FPath) (key : String)
    (fs : FS) (v : Json) :
    load_token_fs cfg legacy key (save_token_fs cfg legacy key fs v)
      = some v := by
  unfold load_token_fs save_token_fs
  rw [resolve_stable_after_save, atomic_write_read_self]
  exact jlookup_single_self key v

theorem load_after_interrupted (cfg : Option FPath) (legacy : FPath)
    (key : String) (fs : FS) (v : Json)
    (hleg : ∀ t, legacy ≠ FPath.tmp t) :
    load_token_fs cfg legacy key
        (interrupted_save_token_fs cfg legacy key fs v)
      = load_token_fs cfg legacy key fs
    ∨ load_token_fs cfg legacy key
        (interrupted_save_token_fs cfg legacy key fs v)
      = some v := by
  by_cases ht : cfgTruthy cfg = true
  · cases cfg with
    | none => simp [cfgTruthy] at ht
    | some c =>
      by_cases hc : fsHas fs c = true
      · left
        have hp := resolve_cfg_exists c legacy fs ht hc
        unfold load_token_fs interrupted_save_token_fs
          interrupted_atomic_write
        rw [hp]
        have hcnew : fsHas (fsWrite fs (FPath.tmp c) (Json.obj [(key, v)])) c
            = true := by
          rw [fsHas_write_ne _ _ _ _ (Ne.symm (FPath.tmp_ne c))]
          exact hc
        rw [resolve_cfg_exists c legacy _ ht hcnew,
          fsRead_write_ne _ _ _ _ (Ne.symm (FPath.tmp_ne c))]
      · rw [Bool.not_eq_true] at hc
        by_cases hl : fsHas fs legacy = true
        · have hp := resolve_cfg_missing_legacy c legacy fs ht hc hl
          by_cases hct : c = FPath.tmp legacy
          · right
            unfold load_token_fs interrupted_save_token_fs
              interrupted_atomic_write
            rw [hp]
            have hcnew : fsHas
                (fsWrite fs (FPath.tmp legacy) (Json.obj [(key, v)])) c
                = true := by
              rw [hct]
              exact fsHas_write_self _ _ _
            rw [resolve_cfg_exists c legacy _ ht hcnew, hct,
              fsRead_write_self]
            exact jlookup_single_self key v
          · left
            unfold load_token_fs interrupted_save_token_fs
              interrupted_atomic_write
            rw [hp]
            have hcnew : fsHas
                (fsWrite fs (FPath.tmp legacy) (Json.obj [(key, v)])) c
                = false := by
              rw [fsHas_write_ne _ _ _ _ hct]
              exact hc
            have hlnew : fsHas
                (fsWrite fs (FPath.tmp legacy) (Json.obj [(key, v)])) legacy
                = true := by
              rw [fsHas_write_ne _ _ _ _ (hleg legacy)]
              exact hl
            rw [resolve_cfg_missing_legacy c legacy _ ht hcnew hlnew,
              fsRead_write_ne _ _ _ _ (hleg legacy)]
        · rw [Bool.not_eq_true] at hl
          left
          have hp := resolve_cfg_no_legacy c legacy fs ht hl
          unfold load_token_fs interrupted_save_token_fs
            interrupted_atomic_write
          rw [hp]
          have hcnew : fsHas (fsWrite fs (FPath.tmp c) (Json.obj [(key, v)])) c
              = false := by
            rw [fsHas_write_ne _ _ _ _ (Ne.symm (FPath.tmp_ne c))]
            exact hc
          have hlnew : fsHas
              (fsWrite fs (FPath.tmp c) (Json.obj [(key, v)])) legacy
              = false := by
            rw [fsHas_write_ne _ _ _ _ (hleg c)]
            exact hl
          rw [resolve_cfg_no_legacy c legacy _ ht hlnew,
            fsRead_write_ne _ _ _ _ (Ne.symm (FPath.tmp_ne c))]
  · left
    have ht2 : cfgTruthy cfg = false := by simpa using ht
    unfold load_token_fs interrupted_save_token_fs interrupted_atomic_write
    rw [resolve_not_truthy cfg legacy fs ht2,
      resolve_not_truthy cfg legacy _ ht2,
      fsRead_write_ne _ _ _ _ (hleg legacy)]

theorem resolve_in (cfg : Option FPath) (legacy : FPath) (fs : FS) :
    resolve_token_path cfg legacy fs = cfgGet cfg
    ∨ resolve_token_path cfg legacy fs = legacy := by
  unfold resolve_token_path
  by_cases h1 : (cfgTruthy cfg && cfgHas fs cfg) = true
  · rw [if_pos h1]; exact Or.inl rfl
  · rw [if_neg h1]
    by_cases h2 : fsHas fs legacy = true
    · rw [if_pos h2]; exact Or.inr rfl
    · rw [if_neg h2]
      by_cases h3 : cfgTruthy cfg = true
      · rw [if_pos h3]; exact Or.inl rfl
      · rw [if_neg h3]; exact Or.inr rfl

theorem resolve_congr (cfg : Option FPath) (legacy : FPath) (fs1 fs2 : FS)
    (hc : cfgHas fs1 cfg = cfgHas fs2 cfg)
    (hl : fsHas fs1 legacy = fsHas fs2 legacy) :
    resolve_token_path cfg legacy fs1 = resolve_token_path cfg legacy fs2 := by
  unfold resolve_token_path
  rw [hc, hl]

/-- A save of one token kind leaves loads of the other kind unchanged,
provided every possible target path of the saving kind (its configured
path and its legacy path) differs from every possible path of the loading
kind, both directly and as the rename temp file. -/
theorem load_token_frame (cfgA : Option FPath) (legA : FPath) (keyA : String)
    (cfgR : Option FPath) (legR : FPath) (keyR : String) (fs : FS) (v : Json)
    (hd : ∀ pA pR : FPath, (pA = cfgGet cfgA ∨ pA = legA) →
      (pR = cfgGet cfgR ∨ pR = legR) → pA ≠ pR ∧ pA ≠ FPath.tmp pR) :
    load_token_fs cfgA legA keyA (save_token_fs cfgR legR keyR fs v)
      = load_token_fs cfgA legA keyA fs := by
  have hpR := resolve_in cfgR legR fs
  unfold load_token_fs save_token_fs
  have hresA : resolve_token_path cfgA legA
      (atomic_write fs (resolve_token_path cfgR legR fs)
        (Json.obj [(keyR, v)]))
      = resolve_token_path cfgA legA fs := by
    apply resolve_congr
    · cases cfgA with
      | none => rfl
      | some c =>
        show fsHas _ c = fsHas fs c
        unfold fsHas
        rw [atomic_write_read_other _ _ _ _
          (hd c _ (Or.inl rfl) hpR).1 (hd c _ (Or.inl rfl) hpR).2]
    · unfold fsHas
      rw [atomic_write_read_other _ _ _ _
        (hd legA _ (Or.inr rfl) hpR).1 (hd legA _ (Or.inr rfl) hpR).2]
  rw [hresA]
  have hpA := resolve_in cfgA legA fs
  rw [atomic_write_read_other _ _ _ _
    (hd _ _ hpA hpR).1 (hd _ _ hpA hpR).2]

/-! ## Lemmas: normalization projections -/

theorem normalize_alert_id (parse : String → Option Json) (a : Alert) :
    (normalize_alert parse a).id = a.id := rfl

theorem normalize_alert_device_id (parse : String → Option Json) (a : Alert) :
    (normalize_alert parse a).device_id = a.device_id := rfl

theorem normalize_alert_ts (parse : String → Option Json) (a : Alert) :
    (normalize_alert parse a).ts = a.ts := rfl

/-! ## Claim theorems -/

/-- C1: for every fixed sequence of vendor alert batches (duplicate ids
across pages included), the list returned by get_n_alerts_paged contains
each alert id at most once, contains only alerts whose device_id equals
the requested device id, is sorted by timestamp descending, and has
length at most the requested count n. -/
theorem get_n_alerts_paged_dedup_sorted (parse : String → Option Json)
    (batches : Nat → List Alert) (dev : String) (n : Nat)
    (now hours_back : Int) :
    ((get_n_alerts_paged parse batches dev n now hours_back).1.map Alert.id).Nodup
    ∧ (∀ b ∈ (get_n_alerts_paged parse batches dev n now hours_back).1,
        b.device_id = some dev)
    ∧ (get_n_alerts_paged parse batches dev n now hours_back).1.Pairwise
        (fun x y => tsD y ≤ tsD x)
    ∧ (get_n_alerts_paged parse batches dev n now hours_back).1.length ≤ n := by
  have hres : (get_n_alerts_paged parse batches dev n now hours_back).1
      = ((sortDesc
          (((alerts_loop batches dev 100 0 (now - hours_back * 60 * 60) []).1).map
            Prod.snd)).take n).map (normalize_alert parse) := rfl
  have hA : ∀ e ∈ (alerts_loop batches dev 100 0 (now - hours_back * 60 * 60) []).1,
      e.2.device_id = some dev ∧ e.1 = e.2.id := by
    intro e he
    rcases alerts_loop_mem batches dev 100 0 _ [] e he with h | h
    · cases h
    · rcases h with ⟨i, _, _, _, hdev, hid⟩
      exact ⟨hdev, hid⟩
  have hB : (((alerts_loop batches dev 100 0 (now - hours_back * 60 * 60) []).1).map
      Prod.fst).Nodup :=
    alerts_loop_keys_nodup batches dev 100 0 _ [] (by simp)
  have hValsIds :
      ((((alerts_loop batches dev 100 0 (now - hours_back * 60 * 60) []).1).map
        Prod.snd).map Alert.id).Nodup := by
    rw [List.map_map]
    have hC : ((alerts_loop batches dev 100 0 (now - hours_back * 60 * 60) []).1).map
        (Alert.id ∘ Prod.snd)
        = ((alerts_loop batches dev 100 0 (now - hours_back * 60 * 60) []).1).map
          Prod.fst :=
      List.map_congr_left (fun e he => ((hA e he).2).symm)
    rw [hC]
    exact hB
  have hperm := sortDesc_perm
    (((alerts_loop batches dev 100 0 (now - hours_back * 60 * 60) []).1).map Prod.snd)
  have hSortedIds :
      ((sortDesc (((alerts_loop batches dev 100 0 (now - hours_back * 60 * 60) []).1).map
        Prod.snd)).map Alert.id).Nodup :=
    ((hperm.map Alert.id).nodup_iff).mpr hValsIds
  refine ⟨?_, ?_, ?_, ?_⟩
  · rw [hres, List.map_map]
    have hmapn : ((sortDesc
        (((alerts_loop batches dev 100 0 (now - hours_back * 60 * 60) []).1).map
          Prod.snd)).take n).map (Alert.id ∘ normalize_alert parse)
        = ((sortDesc
        (((alerts_loop batches dev 100 0 (now - hours_back * 60 * 60) []).1).map
          Prod.snd)).take n).map Alert.id :=
      List.map_congr_left (fun a _ => rfl)
    rw [hmapn, List.map_take]
    exact List.Nodup.sublist (List.take_sublist n _) hSortedIds
  · intro b hb
    rw [hres] at hb
    rcases List.mem_map.mp hb with ⟨a, ha, hab⟩
    have ha2 : a ∈ sortDesc
        (((alerts_loop batches dev 100 0 (now - hours_back * 60 * 60) []).1).map
          Prod.snd) := List.take_subset n _ ha
    have ha3 := hperm.mem_iff.mp ha2
    rcases List.mem_map.mp ha3 with ⟨e, heL, hea⟩
    have := (hA e heL).1
    rw [hea] at this
    rw [← hab]
    exact this
  · rw [hres]
    have hsorted := sortDesc_sorted
      (((alerts_loop batches dev 100 0 (now - hours_back * 60 * 60) []).1).map Prod.snd)
    have htake := List.Pairwise.sublist (List.take_sublist n _) hsorted
    exact List.pairwise_map.mpr htake
  · rw [hres, List.length_map]
    exact List.length_take_le n _

/-- C3: for every sequence of vendor batches the get_n_alerts_paged loop
performs at most the fixed cap of 100 fetches, and every returned alert
is the normalization of an alert collected from one of those fetched
batches for the requested device. -/
theorem get_n_alerts_paged_bounded_fetches (parse : String → Option Json)
    (batches : Nat → List Alert) (dev : String) (n : Nat)
    (now hours_back : Int) :
    (get_n_alerts_paged parse batches dev n now hours_back).2 ≤ 100
    ∧ ∀ b ∈ (get_n_alerts_paged parse batches dev n now hours_back).1,
        ∃ i a, i < 100 ∧ a ∈ batches i ∧ a.device_id = some dev ∧
          b = normalize_alert parse a := by
  constructor
  · exact alerts_loop_fetches_le batches dev 100 0 _ []
  · intro b hb
    have hres : (get_n_alerts_paged parse batches dev n now hours_back).1
        = ((sortDesc
            (((alerts_loop batches dev 100 0 (now - hours_back * 60 * 60) []).1).map
              Prod.snd)).take n).map (normalize_alert parse) := rfl
    rw [hres] at hb
    rcases List.mem_map.mp hb with ⟨a, ha, hab⟩
    have ha2 : a ∈ sortDesc
        (((alerts_loop batches dev 100 0 (now - hours_back * 60 * 60) []).1).map
          Prod.snd) := List.take_subset n _ ha
    have ha3 := (sortDesc_perm _).mem_iff.mp ha2
    rcases List.mem_map.mp ha3 with ⟨e, heL, hea⟩
    rcases alerts_loop_mem batches dev 100 0 _ [] e heL with h | h
    · cases h
    · rcases h with ⟨i, _, hi2, hin, hdev, _⟩
      refine ⟨i, a, by omega, ?_, ?_, hab.symm⟩
      · rw [← hea]; exact hin
      · rw [← hea]; exact hdev

/-- C2 counterexample: a non-empty first batch whose only record has
timestamp 5, equal to the current cursor 5 (so every timestamp in the
batch is at most the cursor), yet the loop does not stop there: a second
fetch is performed, because advancing to max-timestamp plus one still
strictly increases the cursor. -/
theorem alerts_loop_equal_ts_continues_cex :
    (stuckBatches 0).length = 1
    ∧ (∀ a ∈ stuckBatches 0, tsD a ≤ 5)
    ∧ (get_n_alerts_paged noParse stuckBatches "d1" 5 5 0).2 = 2 := by
  refine ⟨rfl, ?_, rfl⟩
  decide

/-- C2 (amended): after processing any non-empty batch that contains at
least one record with a nonzero timestamp and in which every nonzero
timestamp is strictly less than the current since cursor, the loop stops:
that fetch is the last one. (Records with zero or missing timestamps are
excluded from cursor advancement by the source, and a batch with only
such records still advances the cursor by one.) -/
theorem alerts_loop_no_progress_stops (batches : Nat → List Alert)
    (dev : String) (fuel iters : Nat) (sinceTs : Int)
    (m : List (String × Alert))
    (h1 : (batches iters).isEmpty = false)
    (h2 : ∃ a ∈ batches iters, tsD a ≠ 0)
    (h3 : ∀ a ∈ batches iters, tsD a ≠ 0 → tsD a < sinceTs) :
    (alerts_loop batches dev (fuel + 1) iters sinceTs m).2 = 1 := by
  unfold alerts_loop
  rw [if_neg (by rw [h1]; exact Bool.false_ne_true)]
  have hnp : ¬(sinceTs < nextSince (batches iters) sinceTs) := by
    unfold nextSince
    have hne : ((batches iters).map tsD).filter (fun t => decide (t ≠ 0)) ≠ [] := by
      rcases h2 with ⟨a, ha, haz⟩
      exact List.ne_nil_of_mem
        (List.mem_filter.mpr ⟨List.mem_map_of_mem tsD ha, by simpa using haz⟩)
    have hall : ∀ x ∈ ((batches iters).map tsD).filter (fun t => decide (t ≠ 0)),
        x < sinceTs := by
      intro x hx
      rcases List.mem_filter.mp hx with ⟨hx1, hx2⟩
      rcases List.mem_map.mp hx1 with ⟨a, ha, hax⟩
      rw [← hax]
      exact h3 a ha (by rw [hax]; simpa using of_decide_eq_true hx2)
    have := listMax_lt _ sinceTs sinceTs hne hall
    omega
  rw [if_neg hnp]

/-- C2 witness: a concrete run in which the first batch has one record of
timestamp 3 with the cursor at 5: exactly one fetch happens. -/
theorem alerts_loop_no_progress_stops_witness :
    (alerts_loop slowBatches "d1" 100 0 5 []).2 = 1 :=
  alerts_loop_no_progress_stops slowBatches "d1" 99 0 5 []
    (by decide) (by decide) (by decide)

/-- C4 counterexample: a state with a portable access path configured
(and truthy) whose file does not exist yet, while the legacy file exists:
path resolution picks the legacy path, and the save writes the new token
to the legacy file, leaving the configured portable file absent. -/
theorem save_access_token_targets_legacy_cex :
    cfgTruthy legacyFallbackState.access_token_file = true
    ∧ legacyFallbackState.access_token_file ≠ some LEGACY_ACCESS_TOKEN_FILE
    ∧ get_access_token_path legacyFallbackState = LEGACY_ACCESS_TOKEN_FILE
    ∧ fsRead (save_access_token legacyFallbackState (Json.str "new")).fs
        LEGACY_ACCESS_TOKEN_FILE
      = some (Json.obj [("access_token", Json.str "new")])
    ∧ fsRead (save_access_token legacyFallbackState (Json.str "new")).fs
        (FPath.base "/data/cuboai_access_token.json") = none := by
  refine ⟨rfl, ?_, rfl, rfl, rfl⟩
  decide

/-- C4 (amended): every access-token save writes the JSON document via
temp-write and rename to the resolved path and touches no other path; the
resolved path is the configured portable path whenever the portable file
exists or the legacy file is absent, but it is the legacy path when the
portable file is missing and the legacy file exists, and also when no
portable path is configured. -/
theorem save_access_token_path_spec (s : TokenState) (v : Json) :
    fsRead (save_access_token s v).fs (get_access_token_path s)
        = some (Json.obj [("access_token", v)])
    ∧ fsRead (save_access_token s v).fs (FPath.tmp (get_access_token_path s))
        = none
    ∧ (∀ q, q ≠ get_access_token_path s →
        q ≠ FPath.tmp (get_access_token_path s) →
        fsRead (save_access_token s v).fs q = fsRead s.fs q)
    ∧ (cfgTruthy s.access_token_file = true →
        cfgHas s.fs s.access_token_file = true →
        get_access_token_path s = cfgGet s.access_token_file)
    ∧ (cfgTruthy s.access_token_file = true →
        cfgHas s.fs s.access_token_file = false →
        fsHas s.fs LEGACY_ACCESS_TOKEN_FILE = true →
        get_access_token_path s = LEGACY_ACCESS_TOKEN_FILE)
    ∧ (cfgTruthy s.access_token_file = true →
        fsHas s.fs LEGACY_ACCESS_TOKEN_FILE = false →
        get_access_token_path s = cfgGet s.access_token_file)
    ∧ (cfgTruthy s.access_token_file = false →
        get_access_token_path s = LEGACY_ACCESS_TOKEN_FILE) := by
  refine ⟨?_, ?_, ?_, ?_, ?_, ?_, ?_⟩
  · exact atomic_write_read_self _ _ _
  · exact atomic_write_read_tmp _ _ _
  · intro q h1 h2
    exact atomic_write_read_other _ _ _ _ h1 h2
  · intro h1 h2
    cases hcfg : s.access_token_file with
    | none => rw [hcfg] at h1; simp [cfgTruthy] at h1
    | some c =>
      rw [hcfg] at h1 h2
      unfold get_access_token_path
      rw [hcfg]
      exact resolve_cfg_exists c _ _ h1 h2
  · intro h1 h2 h3
    cases hcfg : s.access_token_file with
    | none => rw [hcfg] at h1; simp [cfgTruthy] at h1
    | some c =>
      rw [hcfg] at h1 h2
      unfold get_access_token_path
      rw [hcfg]
      exact resolve_cfg_missing_legacy c _ _ h1 h2 h3
  · intro h1 h2
    cases hcfg : s.access_token_file with
    | none => rw [hcfg] at h1; simp [cfgTruthy] at h1
    | some c =>
      rw [hcfg] at h1
      unfold get_access_token_path
      rw [hcfg]
      exact resolve_cfg_no_legacy c _ _ h1 h2
  · intro h1
    unfold get_access_token_path
    exact resolve_not_truthy _ _ _ h1

/-- C4 witness: in the counterexample state the fifth clause applies, so
the resolved save target is the legacy path. -/
theorem save_access_token_path_spec_witness :
    get_access_token_path legacyFallbackState = LEGACY_ACCESS_TOKEN_FILE :=
  (save_access_token_path_spec legacyFallbackState
    (Json.str "new")).2.2.2.2.1 rfl rfl rfl

/-- C9: for every state and token value, saving then loading returns
exactly the saved value for both token kinds, and a load taken at the
intermediate state of an interrupted save (temp file written, rename not
yet performed) sees either the value the load saw before the save or the
new complete document, never anything else. -/
theorem token_save_load_round_trip (s : TokenState) (T : String) :
    load_access_token (save_access_token s (Json.str T)) = some (Json.str T)
    ∧ load_refresh_token (save_refresh_token s (Json.str T))
        = some (Json.str T)
    ∧ (load_access_token (interrupted_save_access_token s (Json.str T))
          = load_access_token s
        ∨ load_access_token (interrupted_save_access_token s (Json.str T))
          = some (Json.str T))
    ∧ (load_refresh_token (interrupted_save_refresh_token s (Json.str T))
          = load_refresh_token s
        ∨ load_refresh_token (interrupted_save_refresh_token s (Json.str T))
          = some (Json.str T)) := by
  refine ⟨?_, ?_, ?_, ?_⟩
  · exact load_after_save _ _ _ _ _
  · exact load_after_save _ _ _ _ _
  · exact load_after_interrupted _ _ _ _ _
      (fun t h => FPath.noConfusion h)
  · exact load_after_interrupted _ _ _ _ _
      (fun t h => FPath.noConfusion h)

/-- C6: the token refresh re-reads the stored refresh token and uses it
for the exchange (falling back to the caller-supplied token only when the
store yields nothing truthy), and on success persists both the returned
access token and the returned refresh token before returning them: after
the call, loading either kind from the store yields exactly the returned
values. The path hypotheses say the two token kinds are configured at
distinct portable files, as set_token_paths always arranges. -/
theorem refresh_access_token_only_spec (exchange : Json → RefreshResp)
    (s : TokenState) (supplied : Json) (pa pr : String)
    (ha : s.access_token_file = some (FPath.base pa))
    (hr : s.refresh_token_file = some (FPath.base pr))
    (hne : pa ≠ pr)
    (h1 : pa ≠ "/config/cuboai_refresh_token.json")
    (h2 : pr ≠ "/config/cuboai_access_token.json") :
    (∀ v, load_refresh_token s = some v → v.truthy = true →
      used_refresh_token s supplied = v)
    ∧ (load_refresh_token s = none →
        used_refresh_token s supplied = supplied)
    ∧ (refresh_access_token_only exchange s supplied).1
        = ((exchange (used_refresh_token s supplied)).access_token).getD
            Json.null
    ∧ (refresh_access_token_only exchange s supplied).2.1
        = ((exchange (used_refresh_token s supplied)).refresh_token).getD
            (used_refresh_token s supplied)
    ∧ load_access_token (refresh_access_token_only exchange s supplied).2.2
        = some (refresh_access_token_only exchange s supplied).1
    ∧ load_refresh_token (refresh_access_token_only exchange s supplied).2.2
        = some (refresh_access_token_only exchange s supplied).2.1 := by
  have hd : ∀ pA pR : FPath,
      (pA = cfgGet s.access_token_file ∨ pA = LEGACY_ACCESS_TOKEN_FILE) →
      (pR = cfgGet s.refresh_token_file ∨ pR = LEGACY_REFRESH_TOKEN_FILE) →
      pA ≠ pR ∧ pA ≠ FPath.tmp pR := by
    rw [ha, hr]
    intro pA pR hA hB
    have hga : cfgGet (some (FPath.base pa)) = FPath.base pa := rfl
    have hgr : cfgGet (some (FPath.base pr)) = FPath.base pr := rfl
    rw [hga] at hA
    rw [hgr] at hB
    constructor
    · rcases hA with h3 | h3 <;> rcases hB with h4 | h4 <;> rw [h3, h4]
      · intro h; injection h with hs; exact hne hs
      · intro h; injection h with hs; exact h1 hs
      · intro h; injection h with hs; exact h2 hs.symm
      · intro h; injection h with hs; exact absurd hs (by decide)
    · rcases hA with h3 | h3 <;> rw [h3] <;>
        exact fun h => FPath.noConfusion h
  refine ⟨?_, ?_, rfl, rfl, ?_, ?_⟩
  · intro v hv htr
    unfold used_refresh_token
    rw [hv]
    simp [htr]
  · intro hv
    unfold used_refresh_token
    rw [hv]
  · have hkey : ∀ av rv : Json,
        load_token_fs s.access_token_file LEGACY_ACCESS_TOKEN_FILE
          "access_token"
          (save_token_fs s.refresh_token_file LEGACY_REFRESH_TOKEN_FILE
            "refresh_token"
            (save_token_fs s.access_token_file LEGACY_ACCESS_TOKEN_FILE
              "access_token" s.fs av) rv)
        = some av := by
      intro av rv
      rw [load_token_frame _ _ _ _ _ _ _ _ hd]
      exact load_after_save _ _ _ _ _
    exact hkey _ _
  · exact load_after_save _ _ _ _ _

/-- C6 witness: with both portable paths configured on an empty file
system and a vendor that returns the pair A2, R2, the refresh exchange
leaves R2 loadable from the store, as returned. -/
theorem refresh_access_token_only_spec_witness :
    load_refresh_token
        (refresh_access_token_only okExchange freshConfiguredState
          (Json.str "sup")).2.2
      = some (Json.str "R2") := by
  have h := (refresh_access_token_only_spec okExchange freshConfiguredState
    (Json.str "sup") "/data/cuboai_access_token.json"
    "/data/cuboai_refresh_token.json" rfl rfl (by decide) (by decide)
    (by decide)).2.2.2.2.2
  rw [h]
  rfl

/-- C7: for every provider response (with the protocol invariant that a
challenge response carries a Session and a non-challenge response carries
an AuthenticationResult), the password-verifier step returns an MFA
challenge (carrying the challenge name, session and username) exactly
when the response contains a ChallengeName field, returns the credential
pair exactly when it does not, and the two outcomes never coincide; the
branch is decided by inspecting the field, not by an exception. -/
theorem respond_to_password_verifier_spec (username : String)
    (r : VerifierResponse)
    (hs : ∀ cn, r.challengeName = some cn → r.session.isSome = true)
    (hauth : r.challengeName = none → r.authenticationResult.isSome = true) :
    (∀ cn, r.challengeName = some cn →
      ∃ sess, r.session = some sess ∧
        respond_to_password_verifier username r
          = Except.ok (Sum.inl
              { challenge := cn, session := sess,
                challenge_params := r.challengeParameters.getD (Json.obj []),
                username := username }))
    ∧ (r.challengeName = none →
        ∃ ar, r.authenticationResult = some ar ∧
          respond_to_password_verifier username r = Except.ok (Sum.inr ar))
    ∧ (∀ m, respond_to_password_verifier username r = Except.ok (Sum.inl m) →
        r.challengeName = some m.challenge)
    ∧ (∀ ar, respond_to_password_verifier username r
          = Except.ok (Sum.inr ar) → r.challengeName = none)
    ∧ (∀ m ar, ¬(respond_to_password_verifier username r
            = Except.ok (Sum.inl m)
          ∧ respond_to_password_verifier username r
            = Except.ok (Sum.inr ar))) := by
  cases hcn : r.challengeName with
  | some cn0 =>
    cases hsess : r.session with
    | none =>
      have hfalse := hs cn0 hcn
      rw [hsess] at hfalse
      simp at hfalse
    | some sess0 =>
      have hres : respond_to_password_verifier username r
          = Except.ok (Sum.inl
              { challenge := cn0, session := sess0,
                challenge_params := r.challengeParameters.getD (Json.obj []),
                username := username }) := by
        unfold respond_to_password_verifier
        rw [hcn, hsess]
      refine ⟨?_, ?_, ?_, ?_, ?_⟩
      · intro cn hcn2
        injection hcn2 with hcneq
        rw [← hcneq]
        exact ⟨sess0, rfl, hres⟩
      · intro hnone
        exact Option.noConfusion hnone
      · intro m hm
        rw [hres] at hm
        injection hm with hsum
        injection hsum with hrec
        rw [← hrec]
      · intro ar har
        rw [hres] at har
        injection har with hsum
        exact Sum.noConfusion hsum
      · intro m ar hboth
        rw [hboth.1] at hboth
        have := hboth.2
        injection this with hsum
        exact Sum.noConfusion hsum
  | none =>
    cases har : r.authenticationResult with
    | none =>
      have hfalse := hauth hcn
      rw [har] at hfalse
      simp at hfalse
    | some ar0 =>
      have hres : respond_to_password_verifier username r
          = Except.ok (Sum.inr ar0) := by
        unfold respond_to_password_verifier
        rw [hcn, har]
      refine ⟨?_, ?_, ?_, ?_, ?_⟩
      · intro cn hcn2
        exact Option.noConfusion hcn2
      · intro _
        exact ⟨ar0, rfl, hres⟩
      · intro m hm
        rw [hres] at hm
        injection hm with hsum
        exact Sum.noConfusion hsum
      · intro ar _
        rfl
      · intro m ar hboth
        rw [hboth.1] at hboth
        have := hboth.2
        injection this with hsum
        exact Sum.noConfusion hsum

/-- C7 witness: the SMS-MFA response yields exactly the MFA challenge
with its name, session and username. -/
theorem respond_to_password_verifier_spec_witness :
    respond_to_password_verifier "u1" smsMfaResponse
      = Except.ok (Sum.inl
          { challenge := "SMS_MFA", session := "sess-1",
            challenge_params := Json.obj [], username := "u1" }) := by
  have h := (respond_to_password_verifier_spec "u1" smsMfaResponse
    (fun cn _ => rfl) (fun h => Option.noConfusion h)).1 "SMS_MFA" rfl
  rcases h with ⟨sess, hsess, hres⟩
  have hs2 : sess = "sess-1" := by
    injection hsess with h2
    exact h2.symm
  rw [hs2] at hres
  exact hres

/-- C8: alert normalization is a total function (it never raises): a
params string that parses becomes the parsed value, a params string that
fails to parse passes through unchanged, any non-string params value
passes through unchanged, and every other field is copied from the input
record. -/
theorem normalize_alert_spec (parse : String → Option Json) (a : Alert) :
    (∀ s j, a.params = some (Json.str s) → parse s = some j →
      (normalize_alert parse a).params = some j)
    ∧ (∀ s, a.params = some (Json.str s) → parse s = none →
      (normalize_alert parse a).params = some (Json.str s))
    ∧ ((∀ s, a.params ≠ some (Json.str s)) →
      (normalize_alert parse a).params = a.params)
    ∧ (normalize_alert parse a).id = a.id
    ∧ (normalize_alert parse a).device_id = a.device_id
    ∧ (normalize_alert parse a).ty = a.ty
    ∧ (normalize_alert parse a).ts = a.ts
    ∧ (normalize_alert parse a).created = a.created
    ∧ (normalize_alert parse a).image = a.image
    ∧ (normalize_alert parse a).profile = a.profile
    ∧ (normalize_alert parse a).region = a.region := by
  refine ⟨?_, ?_, ?_, rfl, rfl, rfl, rfl, rfl, rfl, rfl, rfl⟩
  · intro s j h1 h2
    simp [normalize_alert, h1, h2]
  · intro s h1 h2
    simp [normalize_alert, h1, h2]
  · intro h
    cases hap : a.params with
    | none => simp [normalize_alert, hap]
    | some v =>
      cases v with
      | str s => exact absurd hap (h s)
      | null => simp [normalize_alert, hap]
      | bool b => simp [normalize_alert, hap]
      | num n => simp [normalize_alert, hap]
      | arr es => simp [normalize_alert, hap]
      | obj fields => simp [normalize_alert, hap]

/-- C8 witness: the spec example: a params string holding a level-high
JSON object normalizes to the parsed structured value. -/
theorem normalize_alert_spec_witness :
    (normalize_alert levelHighParse alertWithParamsText).params
      = some (Json.obj [("level", Json.str "high")]) :=
  (normalize_alert_spec levelHighParse alertWithParamsText).1 levelHighText
    (Json.obj [("level", Json.str "high")]) rfl (by simp [levelHighParse])

/-- C5 (code bug): a camera-state fetch failure whose message is the
provider word Unauthorized (no 401 in the text) does not trigger the
refresh-and-retry path: the classifier compares the capitalized literal
against the lowered message, which can never match, so the sensor goes
straight to the Error state with zero refreshes and a single fetch, even
though a retry would have succeeded. A message containing 401 still
matches, which is the behaviour the claim describes. -/
theorem camera_state_unauthorized_no_retry_bug :
    camera_auth_error_matches "Unauthorized" = false
    ∧ camera_state_update (Except.error "Unauthorized") (Except.ok ())
        (Except.ok (Json.obj [("state", Json.str "online")]))
      = { state := Json.str "Error", refreshes := 0, fetches := 1 }
    ∧ camera_auth_error_matches "401 Client Error: Unauthorized" = true
    ∧ camera_state_update (Except.error "401 Client Error: Unauthorized")
        (Except.ok ())
        (Except.ok (Json.obj [("state", Json.str "online")]))
      = { state := Json.str "online", refreshes := 1, fetches := 2 } := by
  exact ⟨by decide, rfl, by decide, rfl⟩

theorem camera_fold_lookup (parse : String → Option Json)
    (profiles : List CameraProfileEntry) :
    ∀ (m : List (JScalar × Json)) (b : JScalar),
      alookup (profiles.foldl
          (fun m p =>
            match camera_profile_entry parse p with
            | some e => upsert m e.1 e.2
            | none => m) m) b
        = (last_profile_device parse profiles b).or (alookup m b) := by
  induction profiles with
  | nil =>
    intro m b
    simp [last_profile_device]
  | cons p t ih =>
    intro m b
    rw [List.foldl_cons, ih]
    unfold last_profile_device
    rw [List.reverse_cons, List.filterMap_append, List.find?_append,
      Option.map_or', Option.or_assoc]
    cases hp : camera_profile_entry parse p with
    | none =>
      rw [List.filterMap_cons_none hp]
      simp
    | some e =>
      rw [List.filterMap_cons_some hp, List.filterMap_nil]
      by_cases hb : e.1 = b
      · rw [List.find?_cons_of_pos _ (by simpa using hb)]
        rw [alookup_upsert]
        rw [if_pos hb.symm]
        simp
      · rw [List.find?_cons_of_neg _ (by simpa using hb)]
        rw [alookup_upsert]
        rw [if_neg (fun hh => hb hh.symm)]
        simp

/-- C10: the camera map is keyed by baby name: looking up any baby name
in the result of get_camera_profiles yields exactly the device_id of the
last profile in the response that maps to that name (profiles lacking a
baby field map to the default name Unknown), so with duplicate names only
the later-processed profile survives and earlier entries are overwritten.
-/
theorem get_camera_profiles_last_wins (parse : String → Option Json)
    (profiles : List CameraProfileEntry) (b : JScalar) :
    alookup (get_camera_profiles parse profiles) b
      = last_profile_device parse profiles b := by
  unfold get_camera_profiles
  rw [camera_fold_lookup]
  have : alookup ([] : List (JScalar × Json)) b = none := rfl
  rw [this, Option.or_none]

end CuboSpec
